import Mathlib

/-!
Shallow embedding of `src/organizer.py` (FileTypeOrganizer).

The embedded operations are:
* `load_categories` (organizer.py lines 40-74): configuration loading with
  fallback to the built-in default table;
* `get_files_to_organize` (lines 81-101): the directory scanner;
* the per-file classification performed inside `perform_organization`
  (lines 151-165, 209, 212): extension extraction via `os.path.splitext`
  followed by `.lower()`, then a first-match scan of the category table;
* the move/plan loop of `perform_organization` (lines 151-215), modelled as a
  fold over the scanned file list against an explicit directory state, with an
  environment oracle injecting the OS-level failures (permission denied,
  source vanished) that the Python code catches per file.

Machine-level details that the Python runtime handles (text encodings, inode
identity, path normalisation) are below the abstraction of this embedding:
filenames are `String`s, a directory is its listing, and the scanner's
exclusion of the running script is modelled by a name parameter.
-/

namespace FileTypeOrganizer

/-- The built-in default category table (organizer.py lines 43-55), as an
association list in the stored (insertion) order of the Python dict literal. -/
def default_categories : List (String × List String) :=
  [("Images", [".jpg", ".jpeg", ".jpe", ".jif", ".jfif", ".jfi", ".png", ".gif",
      ".webp", ".tiff", ".tif", ".psd", ".raw", ".arw", ".cr2", ".nrw", ".k25",
      ".bmp", ".dib", ".heif", ".heic", ".ind", ".indd", ".indt", ".jp2",
      ".j2k", ".jpf", ".jpx", ".jpm", ".mj2", ".svg", ".svgz", ".ai", ".eps"]),
   ("Videos", [".webm", ".mpg", ".mp2", ".mpeg", ".mpe", ".mpv", ".ogg", ".mp4",
      ".m4p", ".m4v", ".avi", ".wmv", ".mov", ".qt", ".flv", ".swf", ".avchd"]),
   ("Audio", [".m4a", ".flac", ".mp3", ".wav", ".wma", ".aac"]),
   ("Documents", [".doc", ".docx", ".odt", ".pdf", ".xls", ".xlsx", ".ods",
      ".ppt", ".pptx", ".odp", ".txt", ".rtf", ".md"]),
   ("Archives", [".zip", ".rar", ".7z", ".tar", ".gz", ".bz2", ".iso", ".dmg"]),
   ("Scripts", [".py", ".js", ".ts", ".html", ".htm", ".css", ".scss", ".java",
      ".c", ".cpp", ".h", ".cs", ".sh", ".bat", ".php", ".go", ".swift",
      ".sql", ".json", ".xml", ".yml", ".yaml"]),
   ("Executables", [".exe", ".msi", ".app", ".deb", ".rpm"]),
   ("Fonts", [".ttf", ".otf", ".woff", ".woff2"]),
   ("Data", [".csv", ".dat", ".db", ".log", ".mdb", ".sav", ".sqlite", ".dbf"]),
   ("Presentations", [".ppt", ".pptx", ".odp", ".key"]),
   ("Spreadsheets", [".xls", ".xlsx", ".ods", ".csv"])]

/-- Index of the last occurrence of a dot in a character list, if any. -/
def lastIndexOfDot : List Char → Option Nat
  | [] => none
  | c :: rest =>
    match lastIndexOfDot rest with
    | some i => some (i + 1)
    | none => if c = '.' then some 0 else none

/-- Python `os.path.splitext`, restricted to basenames (strings without a path
separator), which is what `os.listdir` yields. The extension starts at the last
dot of the name, except that a run of dots at the very start of the name never
counts as an extension separator: when every character strictly before the last
dot is itself a dot, the extension is empty (so `splitext ".bashrc"` has empty
extension, while `splitext "notes."` has extension "."). -/
def splitext (name : String) : String × String :=
  match lastIndexOfDot name.toList with
  | none => (name, "")
  | some i =>
    if (name.toList.take i).all (fun ch => ch = '.') then (name, "")
    else (String.mk (name.toList.take i), String.mk (name.toList.drop i))

/-- Python `str.lower()` on the ASCII range, applied characterwise. -/
def lower (s : String) : String := String.mk (s.data.map Char.toLower)

/-- The raw (case-preserving) extension of a filename, `os.path.splitext(f)[1]`. -/
def rawExt (filename : String) : String := (splitext filename).2

/-- Line 153: `file_ext = os.path.splitext(filename)[1].lower()`. -/
def fileExt (filename : String) : String := lower (splitext filename).2

/-- The category search of lines 163-166 and 209: scan the table in stored
order and return the first category whose extension list contains `ext`. -/
def lookupCategory : List (String × List String) → String → Option String
  | [], _ => none
  | (cat, exts) :: rest, ext =>
    if ext ∈ exts then some cat else lookupCategory rest ext

/-- The per-file classification decision taken by `perform_organization`. -/
inductive Decision where
  | noExtension
  | unknownType (ext : String)
  | category (cat : String)
  deriving DecidableEq, Repr

/-- Lines 152-165, 209, 212: extract the lowercased extension; empty extension
means skip (no extension); otherwise the first matching category wins, and a
miss means skip (unknown type). -/
def decideFile (categories : List (String × List String)) (filename : String) :
    Decision :=
  let file_ext := fileExt filename
  if file_ext = "" then .noExtension
  else
    match lookupCategory categories file_ext with
    | some cat => .category cat
    | none => .unknownType file_ext

/-! ## Directory scanner (`get_files_to_organize`, lines 81-101) -/

/-- One entry of `os.listdir`: its name, whether `os.path.isfile` holds for it,
and whether its absolute path equals the running script's (`__file__`). -/
structure Entry where
  name : String
  isFile : Bool
  isSelf : Bool
  deriving DecidableEq, Repr

/-- The outcome of the `os.listdir(target_dir)` call: a listing, or one of the
exceptions it can raise. `FileNotFoundError` is the only one the code catches;
`PermissionError` (or any other `OSError`) propagates. -/
inductive ListDirResult where
  | ok (entries : List Entry)
  | fileNotFound
  | permissionDenied
  deriving DecidableEq, Repr

/-- An exception escaping `get_files_to_organize` to its caller. -/
inductive OsError where
  | permissionDenied
  deriving DecidableEq, Repr

/-- Lines 83-101: list the directory, returning `none` if `os.listdir` raises
`FileNotFoundError`; any other listing failure propagates (modelled with
`Except.error`). On success, keep the names of entries that are regular files
and are not the running script itself. -/
def get_files_to_organize (r : ListDirResult) :
    Except OsError (Option (List String)) :=
  match r with
  | .ok items =>
      .ok (some ((items.filter (fun e => e.isFile && !e.isSelf)).map Entry.name))
  | .fileNotFound => .ok none
  | .permissionDenied => .error .permissionDenied

/-! ## Configuration loading (`load_categories`, lines 40-74) -/

/-- The observable state of `categories.json` relative to this program: absent,
present but unreadable (`open`/`read` raises `IOError`), present but not valid
JSON (`json.load` raises `JSONDecodeError`), or present and parsing to a table.
`malformed` and `unreadable` keep the raw bytes so that "the file is not
overwritten" is expressible. -/
inductive ConfigFile where
  | absent
  | unreadable (raw : String)
  | malformed (raw : String)
  | valid (t : List (String × List String))
  deriving DecidableEq, Repr

/-- Lines 57-74.  The `try` block reads and parses the file when it exists,
otherwise writes the default table to it; `except (json.JSONDecodeError,
IOError)` catches every failure of those steps and returns the default table,
so the function returns a pair (table, resulting file state) and never raises.
`write_ok` says whether the best-effort write of the default succeeds. -/
def load_categories (write_ok : Bool) (f : ConfigFile) :
    (List (String × List String)) × ConfigFile :=
  match f with
  | .valid t => (t, .valid t)
  | .absent =>
      if write_ok then (default_categories, .valid default_categories)
      else (default_categories, .absent)
  | .unreadable raw => (default_categories, .unreadable raw)
  | .malformed raw => (default_categories, .malformed raw)

/-! ## The organization loop (`perform_organization`, lines 121-225)

The state of the target directory is its listing: the names of the regular
files at top level, and the subdirectories with the names they contain. The
scan (line 135) is taken once before the loop; the loop then processes each
scanned name in order against the evolving state. -/

/-- A target directory: top-level regular files, and subdirectories given as an
association list from subdirectory name to the entry names inside it. -/
structure Dir where
  files : List String
  subdirs : List (String × List String)
  deriving DecidableEq, Repr

/-- First-match association lookup among the subdirectories. -/
def lookupSub : List (String × List String) → String → Option (List String)
  | [], _ => none
  | p :: rest, c => if p.1 = c then some p.2 else lookupSub rest c

/-- The names present in subdirectory `c` of `d` (empty if `c` is no subdirectory). -/
def subContents (d : Dir) (c : String) : List String :=
  (lookupSub d.subdirs c).getD []

/-- Line 179, `os.makedirs(dest_folder_path, exist_ok=True)` when the path is
not already occupied by a regular file: an existing subdirectory is kept,
otherwise an empty one is created. -/
def mkCategoryDir (d : Dir) (c : String) : Dir :=
  if (lookupSub d.subdirs c).isSome then d
  else { d with subdirs := d.subdirs ++ [(c, [])] }

/-- Append file `f` to the contents of every subdirectory entry named `c`. -/
def addToSub (subs : List (String × List String)) (c f : String) :
    List (String × List String) :=
  subs.map (fun p => if p.1 = c then (p.1, p.2 ++ [f]) else p)

/-- The per-file outcome reported by the loop (spec's Operation Record). Every
constructor arising from a category match carries that category. -/
inductive Outcome where
  | planned (cat : String)
  | moved (cat : String)
  | skippedNoExt
  | skippedUnknown (ext : String)
  | skippedExists (cat : String)
  | errorPermission (cat : String)
  | errorNotFound (cat : String)
  | errorOther (cat : String) (msg : String)
  deriving DecidableEq, Repr

/-- Lines 178-206, the `try` block of a real move of file `f` to category `c`:
`os.makedirs(..., exist_ok=True)` raises `FileExistsError` (whose message does
not contain "already exists", hence the generic `OSError` report) if the
category path exists as a regular file; `shutil.move` raises an error whose
message contains "already exists" if the destination already holds an entry
named `f` (reported as a skip); it raises `FileNotFoundError` if the source is
gone; otherwise the file leaves the top level and enters the subdirectory. -/
def tryMove (d : Dir) (f c : String) : Outcome × Dir :=
  if c ∈ d.files then (.errorOther c "File exists", d)
  else
    let d1 := mkCategoryDir d c
    if f ∈ subContents d1 c then (.skippedExists c, d1)
    else if f ∈ d1.files then
      (.moved c, { files := d1.files.filter (fun n => n ≠ f),
                   subdirs := addToSub d1.subdirs c f })
    else (.errorNotFound c, d1)

/-- External events the OS can inject into one file's move, matching the
`except` clauses of lines 184-191: a `PermissionError`, or the source file
vanishing mid-operation (`FileNotFoundError`). `normal` means the move runs
against the modelled directory state alone. -/
inductive MoveEvent where
  | normal
  | permissionDenied
  | sourceVanished
  deriving DecidableEq, Repr

/-- A real move of `f`, subject to the environment's event for `f`. -/
def tryMoveEnv (env : String → MoveEvent) (d : Dir) (f c : String) :
    Outcome × Dir :=
  match env f with
  | .permissionDenied => (.errorPermission c, d)
  | .sourceVanished => (.errorNotFound c, d)
  | .normal => tryMove d f c

/-- One iteration of the loop of lines 151-215 for file `f`: classify, then
skip, plan (dry run, lines 171-175) or execute (lines 176-206) the move. -/
def processFile (is_dry_run : Bool) (env : String → MoveEvent)
    (categories : List (String × List String)) (d : Dir) (f : String) :
    Outcome × Dir :=
  match decideFile categories f with
  | .noExtension => (.skippedNoExt, d)
  | .unknownType e => (.skippedUnknown e, d)
  | .category c => if is_dry_run then (.planned c, d) else tryMoveEnv env d f c

/-- The loop of lines 151-215 over the scanned file list, producing one outcome
per file (in order) and the final directory state. -/
def runFiles (is_dry_run : Bool) (env : String → MoveEvent)
    (categories : List (String × List String)) :
    Dir → List String → List Outcome × Dir
  | d, [] => ([], d)
  | d, f :: fs =>
    let r := processFile is_dry_run env categories d f
    let rest := runFiles is_dry_run env categories r.2 fs
    (r.1 :: rest.1, rest.2)

/-- The scan of lines 90-101 on a `Dir`: subdirectories fail `os.path.isfile`
and are excluded, and so is the entry whose name is the running script's. -/
def scanDir (selfName : String) (d : Dir) : List String :=
  d.files.filter (fun n => n ≠ selfName)

/-- Lines 121-225 on an existing target directory: scan once, then run the
loop. (When the scan returns `None` or an empty list, lines 136-146 return
early with no records and no mutation; those cases are the `[]` case here.) -/
def perform_organization (is_dry_run : Bool) (env : String → MoveEvent)
    (categories : List (String × List String)) (selfName : String) (d : Dir) :
    List Outcome × Dir :=
  runFiles is_dry_run env categories d (scanDir selfName d)

/-- Environment in which the OS injects no external failures. -/
def normalEnv : String → MoveEvent := fun _ => .normal

/-- True for the outcomes reported through the `except` clauses as errors
(a destination collision is reported as a skip, not an error). -/
def isErrorOutcome : Outcome → Bool
  | .errorPermission _ => true
  | .errorNotFound _ => true
  | .errorOther _ _ => true
  | _ => false

/-- True for every outcome that can only arise at move time: in a dry run none
of these can be produced. -/
def isMoveTimeFailure : Outcome → Bool
  | .errorPermission _ => true
  | .errorNotFound _ => true
  | .errorOther _ _ => true
  | .skippedExists _ => true
  | _ => false

/-- The classification decision a reported outcome embodies. -/
def outcomeDecision : Outcome → Decision
  | .planned c => .category c
  | .moved c => .category c
  | .skippedExists c => .category c
  | .errorPermission c => .category c
  | .errorNotFound c => .category c
  | .errorOther c _ => .category c
  | .skippedNoExt => .noExtension
  | .skippedUnknown e => .unknownType e

/-- The outcome a dry run reports for one file (lines 152-175 with
`is_dry_run = True`). -/
def dryOutcome (categories : List (String × List String)) (f : String) :
    Outcome :=
  match decideFile categories f with
  | .noExtension => .skippedNoExt
  | .unknownType e => .skippedUnknown e
  | .category c => .planned c

/-! ## Helper lemmas -/

lemma filter_organizable_eq_nil (entries : List Entry)
    (h : ∀ e ∈ entries, e.isFile = false) :
    entries.filter (fun e => e.isFile && !e.isSelf) = [] := by
  rw [List.filter_eq_nil_iff]
  intro e he
  simp [h e he]

lemma lookupCategory_append_first (pre post : List (String × List String))
    (cat : String) (exts : List String) (ext : String)
    (h1 : ext ∈ exts) (h2 : ∀ p ∈ pre, ext ∉ p.2) :
    lookupCategory (pre ++ (cat, exts) :: post) ext = some cat := by
  induction pre with
  | nil => simp [lookupCategory, h1]
  | cons q rest ih =>
    obtain ⟨qc, qe⟩ := q
    have hq : ext ∉ qe := h2 (qc, qe) (List.mem_cons_self _ _)
    simp only [List.cons_append, lookupCategory, if_neg hq]
    exact ih (fun p hp => h2 p (List.mem_cons_of_mem _ hp))

lemma lookupCategory_eq_of_unique (categories : List (String × List String))
    (cat ext : String)
    (hex : ∃ p ∈ categories, ext ∈ p.2)
    (huniq : ∀ p ∈ categories, ext ∈ p.2 → p.1 = cat) :
    lookupCategory categories ext = some cat := by
  induction categories with
  | nil => simp at hex
  | cons q rest ih =>
    obtain ⟨qc, qe⟩ := q
    by_cases hq : ext ∈ qe
    · have hcat : qc = cat := huniq (qc, qe) (List.mem_cons_self _ _) hq
      simp [lookupCategory, hq, hcat]
    · simp only [lookupCategory, if_neg hq]
      refine ih ?_ (fun p hp hpe => huniq p (List.mem_cons_of_mem _ hp) hpe)
      obtain ⟨p, hp, hpe⟩ := hex
      rcases List.mem_cons.mp hp with h | h
      · rw [h] at hpe; exact absurd hpe hq
      · exact ⟨p, h, hpe⟩

lemma decideFile_eq_category (categories : List (String × List String))
    (name ext cat : String) (hfe : fileExt name = ext) (hne : ext ≠ "")
    (hl : lookupCategory categories ext = some cat) :
    decideFile categories name = .category cat := by
  simp only [decideFile, hfe, if_neg hne, hl]

lemma subContents_isSome (d : Dir) (c f : String) (h : f ∈ subContents d c) :
    (lookupSub d.subdirs c).isSome := by
  unfold subContents at h
  cases hl : lookupSub d.subdirs c with
  | none => rw [hl] at h; simp at h
  | some l => rfl

lemma tryMove_skippedExists (d : Dir) (f c : String)
    (hsub : f ∈ subContents d c) (hfile : c ∉ d.files) :
    tryMove d f c = (.skippedExists c, d) := by
  have hmk : mkCategoryDir d c = d := by
    simp [mkCategoryDir, subContents_isSome d c f hsub]
  simp only [tryMove, if_neg hfile, hmk, if_pos hsub]

/-! ## Claim C3: scanner error behavior -/

/-- C3 counterexample: the claim says `get_files_to_organize` returns `None`
when the listing fails for a reason other than non-existence, such as a
permission error; in the code only `FileNotFoundError` is caught, so a
`PermissionError` from `os.listdir` propagates instead of producing `None`. -/
theorem c3_counterexample :
    get_files_to_organize ListDirResult.permissionDenied ≠ Except.ok none := by
  intro h
  exact Except.noConfusion h

/-- C3 (amended): `get_files_to_organize` returns `None` exactly when the path
does not exist (`os.listdir` raises `FileNotFoundError`); a listing failure for
any other reason, such as a permission error, propagates as an exception; on an
existing directory with no regular files it returns the empty sequence. -/
theorem c3_scan_error_behavior (entries : List Entry)
    (hnofile : ∀ e ∈ entries, e.isFile = false) :
    get_files_to_organize .fileNotFound = .ok none ∧
    get_files_to_organize (.ok entries) = .ok (some []) ∧
    get_files_to_organize .permissionDenied = .error .permissionDenied := by
  refine ⟨rfl, ?_, rfl⟩
  simp only [get_files_to_organize, filter_organizable_eq_nil entries hnofile,
    List.map_nil]

/-- Witness for `c3_scan_error_behavior` at a directory whose only entry is a
subdirectory. -/
theorem c3_witness :
    get_files_to_organize (.ok [⟨"sub", false, false⟩]) = .ok (some []) :=
  (c3_scan_error_behavior [⟨"sub", false, false⟩] (by decide)).2.1

/-! ## Claim C4: first matching category in stored order wins -/

/-- C4: for a table decomposed as `pre ++ (cat, exts) :: post` where the
extension belongs to `exts` but to no category of `pre`, the lookup scans
categories in stored order and stops at `cat`, regardless of whether later
categories of `post` also contain the extension; a filename whose lowercased
extension is that extension is classified into `cat`. -/
theorem c4_first_category_in_stored_order_wins
    (pre post : List (String × List String)) (cat : String)
    (exts : List String) (ext name : String)
    (h1 : ext ∈ exts) (h2 : ∀ p ∈ pre, ext ∉ p.2)
    (h3 : fileExt name = ext) (h4 : ext ≠ "") :
    lookupCategory (pre ++ (cat, exts) :: post) ext = some cat ∧
    decideFile (pre ++ (cat, exts) :: post) name = .category cat := by
  have hl := lookupCategory_append_first pre post cat exts ext h1 h2
  exact ⟨hl, decideFile_eq_category _ name ext cat h3 h4 hl⟩

/-- Witness for `c4_first_category_in_stored_order_wins`: ".csv" appears in
both "Data" and "Spreadsheets"; the category stored first wins. -/
theorem c4_witness :
    lookupCategory
        [("Images", [".jpg"]), ("Data", [".csv"]), ("Spreadsheets", [".csv"])]
        ".csv" = some "Data" ∧
    decideFile
        [("Images", [".jpg"]), ("Data", [".csv"]), ("Spreadsheets", [".csv"])]
        "report.CSV" = .category "Data" :=
  c4_first_category_in_stored_order_wins [("Images", [".jpg"])]
    [("Spreadsheets", [".csv"])] "Data" [".csv"] ".csv" "report.CSV"
    (by decide) (by decide) (by decide) (by decide)

/-! ## Claim C5: malformed configuration falls back to the default table -/

/-- C5: when the configuration file exists but fails to parse,
`load_categories` returns the built-in default table and leaves the file
untouched; it never modifies an existing file at all, and on every input it
returns either the parsed table or the default one (no failure path raises,
since the `except` clause covers the parse and I/O failures). -/
theorem c5_malformed_config_returns_default (raw : String) (write_ok : Bool) :
    load_categories write_ok (.malformed raw)
      = (default_categories, .malformed raw) ∧
    (∀ f : ConfigFile, f ≠ .absent → (load_categories write_ok f).2 = f) ∧
    (∀ f : ConfigFile,
      (load_categories write_ok f).1 = default_categories ∨
      ∃ t, f = .valid t ∧ (load_categories write_ok f).1 = t) := by
  refine ⟨rfl, ?_, ?_⟩
  · intro f hf
    cases f with
    | absent => exact absurd rfl hf
    | unreadable raw => rfl
    | malformed raw => rfl
    | valid t => rfl
  · intro f
    cases f with
    | absent => cases write_ok <;> exact Or.inl rfl
    | unreadable raw => exact Or.inl rfl
    | malformed raw => exact Or.inl rfl
    | valid t => exact Or.inr ⟨t, rfl, rfl⟩

/-- Witness for `c5_malformed_config_returns_default` on a concrete malformed
file. -/
theorem c5_witness :
    load_categories true (ConfigFile.malformed "not json")
      = (default_categories, ConfigFile.malformed "not json") ∧
    (load_categories false (ConfigFile.malformed "not json")).2
      = ConfigFile.malformed "not json" :=
  ⟨(c5_malformed_config_returns_default "not json" true).1,
   (c5_malformed_config_returns_default "not json" false).2.1 _ (by decide)⟩

/-! ## Claim C6: case-insensitive matching -/

/-- C6 counterexample: the claim asserts case-insensitive classification for
arbitrary tables, including ones whose stored entries contain uppercase
letters. In the code only the filename's extension is lowercased and the table
entry is compared verbatim, so a stored entry ".JPG" matches no file at all:
"photo.JPG" carries exactly that extension and is still reported unknown. -/
theorem c6_counterexample :
    decideFile [("Images", [".JPG"])] "photo.JPG"
      = Decision.unknownType ".jpg" := by decide

/-- C6 (amended): for a table whose relevant stored entry is lowercase, an
extension belonging to exactly one category's list classifies every filename
carrying that extension into that category regardless of the letter case in
which the extension appears in the filename. -/
theorem c6_lowercase_entry_case_insensitive
    (categories : List (String × List String)) (cat : String)
    (exts : List String) (ext name : String)
    (hmem : (cat, exts) ∈ categories) (hext : ext ∈ exts)
    (hlow : lower ext = ext) (hne : ext ≠ "")
    (huniq : ∀ p ∈ categories, ext ∈ p.2 → p.1 = cat)
    (hname : lower (rawExt name) = ext) :
    decideFile categories name = .category cat := by
  have hl := lookupCategory_eq_of_unique categories cat ext
    ⟨(cat, exts), hmem, hext⟩ huniq
  exact decideFile_eq_category categories name ext cat hname hne hl

/-- Witness for `c6_lowercase_entry_case_insensitive`: an uppercase filename
matching a lowercase stored entry. -/
theorem c6_witness :
    decideFile [("Images", [".jpg"])] "PHOTO.JPG"
      = Decision.category "Images" :=
  c6_lowercase_entry_case_insensitive [("Images", [".jpg"])] "Images"
    [".jpg"] ".jpg" "PHOTO.JPG" (by decide) (by decide) (by decide)
    (by decide) (by decide) (by decide)

/-! ## Claim C7: destination collision is a skip, not an error -/

/-- C7: in a real run, when the destination category folder already contains an
entry named like the file, the recorded outcome is skipped-exists (not an
error) and the directory state is unchanged: the original file stays in
place. -/
theorem c7_destination_collision_skipped (env : String → MoveEvent)
    (categories : List (String × List String)) (d : Dir) (f cat : String)
    (hdec : decideFile categories f = .category cat)
    (henv : env f = .normal)
    (hsub : f ∈ subContents d cat)
    (hfile : cat ∉ d.files) :
    processFile false env categories d f = (.skippedExists cat, d) := by
  simp only [processFile, hdec, Bool.false_eq_true, if_false, tryMoveEnv, henv]
  exact tryMove_skippedExists d f cat hsub hfile

/-- Witness for `c7_destination_collision_skipped` on a concrete collision. -/
theorem c7_witness :
    processFile false normalEnv [("Images", [".jpg"])]
        ⟨["a.jpg"], [("Images", ["a.jpg"])]⟩ "a.jpg"
      = (.skippedExists "Images", ⟨["a.jpg"], [("Images", ["a.jpg"])]⟩) :=
  c7_destination_collision_skipped normalEnv [("Images", [".jpg"])]
    ⟨["a.jpg"], [("Images", ["a.jpg"])]⟩ "a.jpg" "Images"
    (by decide) (by decide) (by decide) (by decide)

/-! ## Dry run lemmas and claims C1, C8, C10 -/

lemma runFiles_dry (env : String → MoveEvent)
    (categories : List (String × List String)) (fs : List String) :
    ∀ d : Dir, runFiles true env categories d fs
      = (fs.map (dryOutcome categories), d) := by
  induction fs with
  | nil => intro d; rfl
  | cons f rest ih =>
    intro d
    simp only [runFiles, processFile, List.map_cons]
    cases h : decideFile categories f <;> simp [dryOutcome, h, ih]

lemma mem_zip_map_self {α β : Type} (g : α → β) (l : List α) (p : α × β)
    (hp : p ∈ l.zip (l.map g)) : p.2 = g p.1 := by
  induction l with
  | nil => cases hp
  | cons a r ih =>
    rcases List.mem_cons.mp hp with h | h
    · rw [h]
    · exact ih h

lemma runFiles_length (is_dry_run : Bool) (env : String → MoveEvent)
    (categories : List (String × List String)) (fs : List String) :
    ∀ d : Dir, (runFiles is_dry_run env categories d fs).1.length
      = fs.length := by
  induction fs with
  | nil => intro d; rfl
  | cons f rest ih => intro d; simp [runFiles, ih]

/-- C1: a dry run performs no mutating filesystem operation: the directory
state after the run equals the state before it; one record is produced per
scanned file; every file whose lowercased extension matches some category
yields a planned record for that category; and no move-time outcome
(permission, not-found, other OS error, or destination collision) occurs. -/
theorem c1_dry_run_is_pure (env : String → MoveEvent)
    (categories : List (String × List String)) (selfName : String) (d : Dir) :
    (perform_organization true env categories selfName d).2 = d ∧
    (perform_organization true env categories selfName d).1.length
      = (scanDir selfName d).length ∧
    (∀ p ∈ (scanDir selfName d).zip
        (perform_organization true env categories selfName d).1,
      ∀ c, decideFile categories p.1 = .category c → p.2 = .planned c) ∧
    (∀ o ∈ (perform_organization true env categories selfName d).1,
      isMoveTimeFailure o = false) := by
  have h := runFiles_dry env categories (scanDir selfName d) d
  unfold perform_organization
  rw [h]
  refine ⟨rfl, by simp, ?_, ?_⟩
  · intro p hp c hc
    have h2 := mem_zip_map_self (dryOutcome categories) (scanDir selfName d) p hp
    rw [h2]
    simp only [dryOutcome, hc]
  · intro o ho
    simp only [List.mem_map] at ho
    obtain ⟨f, hf, rfl⟩ := ho
    unfold dryOutcome
    cases decideFile categories f <;> rfl

/-- Witness for `c1_dry_run_is_pure` on a concrete directory: the state is
untouched and the planned record carries no move-time failure. -/
theorem c1_witness :
    (perform_organization true normalEnv [("Images", [".jpg"])] "organizer.py"
        ⟨["a.jpg", "b"], []⟩).2 = ⟨["a.jpg", "b"], []⟩ ∧
    isMoveTimeFailure (Outcome.planned "Images") = false :=
  have h := c1_dry_run_is_pure normalEnv [("Images", [".jpg"])] "organizer.py"
    ⟨["a.jpg", "b"], []⟩
  ⟨h.1, h.2.2.2 (Outcome.planned "Images") (by decide)⟩

/-- C8: the loop records exactly one outcome per scanned file and runs to
completion, whatever OS-level failures the environment injects into the moves
(every per-file error is caught by the per-file `except` clauses and never
aborts the remaining batch). -/
theorem c8_one_record_per_file (is_dry_run : Bool) (env : String → MoveEvent)
    (categories : List (String × List String)) (d : Dir) (fs : List String)
    (selfName : String) :
    (runFiles is_dry_run env categories d fs).1.length = fs.length ∧
    (perform_organization is_dry_run env categories selfName d).1.length
      = (scanDir selfName d).length :=
  ⟨runFiles_length is_dry_run env categories fs d,
   runFiles_length is_dry_run env categories (scanDir selfName d) d⟩

lemma outcomeDecision_tryMove (d : Dir) (f c : String) :
    outcomeDecision (tryMove d f c).1 = .category c := by
  unfold tryMove
  split
  · rfl
  · dsimp only
    split
    · rfl
    · split <;> rfl

lemma outcomeDecision_processFile (is_dry_run : Bool) (env : String → MoveEvent)
    (categories : List (String × List String)) (d : Dir) (f : String) :
    outcomeDecision (processFile is_dry_run env categories d f).1
      = decideFile categories f := by
  unfold processFile
  cases h : decideFile categories f with
  | noExtension => rfl
  | unknownType e => rfl
  | category c =>
    cases is_dry_run with
    | true => rfl
    | false =>
      simp only [Bool.false_eq_true, if_false, tryMoveEnv]
      cases env f with
      | permissionDenied => rfl
      | sourceVanished => rfl
      | normal => exact outcomeDecision_tryMove d f c

lemma runFiles_map_decision (is_dry_run : Bool) (env : String → MoveEvent)
    (categories : List (String × List String)) (fs : List String) :
    ∀ d : Dir, ((runFiles is_dry_run env categories d fs).1).map outcomeDecision
      = fs.map (decideFile categories) := by
  induction fs with
  | nil => intro d; rfl
  | cons f rest ih =>
    intro d
    simp [runFiles, outcomeDecision_processFile, ih]

/-- C10: for the same starting directory and category table, the dry run and
the real run (under any environments) make identical per-file classification
decisions, in order: the i-th record of either mode embodies the decision
computed from the i-th scanned filename alone, so the `is_dry_run` flag never
changes which category a file is assigned to or whether it is skipped. -/
theorem c10_dry_and_real_classify_identically (env env2 : String → MoveEvent)
    (categories : List (String × List String)) (selfName : String) (d : Dir) :
    ((perform_organization true env categories selfName d).1).map
        outcomeDecision
      = ((perform_organization false env2 categories selfName d).1).map
          outcomeDecision ∧
    ((perform_organization false env2 categories selfName d).1).map
        outcomeDecision
      = (scanDir selfName d).map (decideFile categories) := by
  unfold perform_organization
  rw [runFiles_map_decision, runFiles_map_decision]
  exact ⟨rfl, rfl⟩

/-! ## Claim C2: extension extraction -/

lemma string_data_append (a b : String) : (a ++ b).data = a.data ++ b.data := by
  cases a
  cases b
  rfl

lemma lastIndexOfDot_eq_none (l : List Char) (h : '.' ∉ l) :
    lastIndexOfDot l = none := by
  induction l with
  | nil => rfl
  | cons c rest ih =>
    have hc : ¬ c = '.' := fun e => h (e ▸ List.mem_cons_self c rest)
    have hr : '.' ∉ rest := fun hr => h (List.mem_cons_of_mem c hr)
    simp [lastIndexOfDot, ih hr, hc]

lemma lastIndexOfDot_append_dot (l₁ l₂ : List Char) (h : '.' ∉ l₂) :
    lastIndexOfDot (l₁ ++ '.' :: l₂) = some l₁.length := by
  induction l₁ with
  | nil => simp [lastIndexOfDot, lastIndexOfDot_eq_none l₂ h]
  | cons c rest ih => simp [lastIndexOfDot, ih]

lemma lastIndexOfDot_replicate (k : Nat) (l₂ : List Char) (h : '.' ∉ l₂) :
    lastIndexOfDot (List.replicate k '.' ++ l₂)
      = if k = 0 then none else some (k - 1) := by
  induction k with
  | zero => simpa using lastIndexOfDot_eq_none l₂ h
  | succ n ih =>
    have hc : List.replicate (n + 1) '.' ++ l₂
        = '.' :: (List.replicate n '.' ++ l₂) := by
      simp [List.replicate_succ]
    rw [hc, lastIndexOfDot, ih]
    cases n with
    | zero => simp
    | succ m => simp

lemma take_len_append {α : Type} (l₁ l₂ : List α) :
    (l₁ ++ l₂).take l₁.length = l₁ := by
  induction l₁ with
  | nil => rfl
  | cons a r ih => simp [ih]

lemma drop_len_append {α : Type} (l₁ l₂ : List α) :
    (l₁ ++ l₂).drop l₁.length = l₂ := by
  induction l₁ with
  | nil => rfl
  | cons a r ih => simp [ih]

lemma splitext_of_append (stem tail : String) (htail : '.' ∉ tail.data)
    (hstem : ∃ ch ∈ stem.data, ch ≠ '.') :
    splitext (stem ++ "." ++ tail)
      = (String.mk stem.data, String.mk ('.' :: tail.data)) := by
  have hdata : (stem ++ "." ++ tail).data = stem.data ++ '.' :: tail.data := by
    rw [string_data_append, string_data_append]
    simp
  have hlist : (stem ++ "." ++ tail).toList = stem.data ++ '.' :: tail.data :=
    hdata
  have hall : ¬ (stem.data.all (fun ch => ch = '.') = true) := by
    intro hAll
    obtain ⟨ch, hch, hne⟩ := hstem
    exact hne (by simpa using (List.all_eq_true.mp hAll) ch hch)
  unfold splitext
  rw [hlist, lastIndexOfDot_append_dot stem.data tail.data htail]
  dsimp only
  rw [take_len_append stem.data ('.' :: tail.data), if_neg hall,
    drop_len_append stem.data ('.' :: tail.data)]

lemma splitext_of_leading_dots (tail : String) (k : Nat)
    (htail : '.' ∉ tail.data) :
    (splitext (String.mk (List.replicate k '.') ++ tail)).2 = "" := by
  have hdata : (String.mk (List.replicate k '.') ++ tail).data
      = List.replicate k '.' ++ tail.data := by
    rw [string_data_append]
  unfold splitext
  rw [show (String.mk (List.replicate k '.') ++ tail).toList
      = List.replicate k '.' ++ tail.data from hdata,
    lastIndexOfDot_replicate k tail.data htail]
  cases k with
  | zero => rfl
  | succ n =>
    simp only [Nat.succ_ne_zero, if_false, Nat.succ_sub_one]
    have htake : (List.replicate (n + 1) '.' ++ tail.data).take n
        = List.replicate n '.' := by
      rw [List.take_append_eq_append_take, List.take_replicate]
      simp [Nat.min_def, Nat.le_of_lt (Nat.lt_succ_self n)]
    have hall : (List.replicate n '.').all (fun ch => ch = '.') = true := by
      simp [List.all_eq_true, List.mem_replicate]
    rw [htake, if_pos hall]

/-- C2 counterexample: the claim says a name whose only dot is its first
character (".bashrc") has extension ".bashrc" and is classified, and that a
name ending in "." has no extension. `os.path.splitext` never treats dots at
the start of the name as extension separators, so ".bashrc" has empty extension
and is skipped even when ".bashrc" is a listed extension, while "notes." has
extension "." and is looked up (and reported as unknown type ".", not as
having no extension). -/
theorem c2_counterexample :
    fileExt ".bashrc" = "" ∧
    decideFile [("Shell", [".bashrc"])] ".bashrc" = Decision.noExtension ∧
    fileExt "notes." = "." ∧
    decideFile [("Shell", [".bashrc"])] "notes."
      = Decision.unknownType "." := by decide

/-- C2 (amended): the extension is everything from the last dot of the name to
its end, lowercased, except that when every character before the last dot is
itself a dot (including names with no dot at all) the name has no extension and
is recorded skipped-no-extension. Concretely: for a name `stem ++ "." ++ tail`
whose tail has no further dot and whose stem is not all dots, the extension is
`lower ("." ++ tail)` and classification proceeds by looking that up; for a
name made of `k` leading dots followed by a dotless tail, the extension is
empty and the file is recorded skipped-no-extension. -/
theorem c2_extension_extraction (categories : List (String × List String))
    (stem tail : String) (k : Nat)
    (htail : '.' ∉ tail.data)
    (hstem : ∃ ch ∈ stem.data, ch ≠ '.') :
    fileExt (stem ++ "." ++ tail) = lower ("." ++ tail) ∧
    fileExt (String.mk (List.replicate k '.') ++ tail) = "" ∧
    decideFile categories (String.mk (List.replicate k '.') ++ tail)
      = .noExtension ∧
    (∀ c, lookupCategory categories (lower ("." ++ tail)) = some c →
      decideFile categories (stem ++ "." ++ tail) = .category c) ∧
    (lookupCategory categories (lower ("." ++ tail)) = none →
      decideFile categories (stem ++ "." ++ tail)
        = .unknownType (lower ("." ++ tail))) := by
  have hmk : String.mk ('.' :: tail.data) = "." ++ tail := by
    cases tail
    rfl
  have h1 : fileExt (stem ++ "." ++ tail) = lower ("." ++ tail) := by
    unfold fileExt
    rw [splitext_of_append stem tail htail hstem]
    rw [hmk]
  have h2 : fileExt (String.mk (List.replicate k '.') ++ tail) = "" := by
    unfold fileExt
    rw [splitext_of_leading_dots tail k htail]
    rfl
  have hne : lower ("." ++ tail) ≠ "" := by
    intro h
    have hd : (lower ("." ++ tail)).data = [] := by rw [h]
    have hd2 : (lower ("." ++ tail)).data
        = Char.toLower '.' :: tail.data.map Char.toLower := by
      cases tail
      rfl
    rw [hd2] at hd
    exact List.noConfusion hd
  refine ⟨h1, h2, ?_, ?_, ?_⟩
  · simp [decideFile, h2]
  · intro c hc
    exact decideFile_eq_category categories _ _ c h1 hne hc
  · intro hc
    simp only [decideFile, h1, if_neg hne, hc]

/-- Witness for `c2_extension_extraction`: "archive" ++ "." ++ "TAR" has
extension ".tar" and lands in Archives; "." ++ "bashrc" (one leading dot) has
no extension and is skipped. -/
theorem c2_witness :
    fileExt ("archive" ++ "." ++ "TAR") = lower ("." ++ "TAR") ∧
    fileExt (String.mk (List.replicate 1 '.') ++ "bashrc") = "" ∧
    decideFile default_categories (String.mk (List.replicate 1 '.') ++ "bashrc")
      = .noExtension ∧
    decideFile default_categories ("archive" ++ "." ++ "TAR")
      = .category "Archives" :=
  have h := c2_extension_extraction default_categories "archive" "TAR" 1
    (by decide) (by decide)
  have h2 := c2_extension_extraction default_categories "archive" "bashrc" 1
    (by decide) (by decide)
  ⟨h.1, h2.2.1, h2.2.2.1, h.2.2.2.1 "Archives" (by decide)⟩

/-! ## Claim C9: idempotence of a successful real run -/

lemma tryMove_eq (d : Dir) (f c : String) :
    tryMove d f c =
      if c ∈ d.files then (.errorOther c "File exists", d)
      else if f ∈ subContents (mkCategoryDir d c) c then
        (.skippedExists c, mkCategoryDir d c)
      else if f ∈ (mkCategoryDir d c).files then
        (.moved c,
          { files := (mkCategoryDir d c).files.filter (fun n => n ≠ f),
            subdirs := addToSub (mkCategoryDir d c).subdirs c f })
      else (.errorNotFound c, mkCategoryDir d c) := rfl

lemma runFiles_cons (is_dry_run : Bool) (env : String → MoveEvent)
    (categories : List (String × List String)) (d : Dir) (f : String)
    (fs : List String) :
    runFiles is_dry_run env categories d (f :: fs)
      = ((processFile is_dry_run env categories d f).1
          :: (runFiles is_dry_run env categories
              (processFile is_dry_run env categories d f).2 fs).1,
         (runFiles is_dry_run env categories
            (processFile is_dry_run env categories d f).2 fs).2) := rfl

lemma mkCategoryDir_files (d : Dir) (c : String) :
    (mkCategoryDir d c).files = d.files := by
  unfold mkCategoryDir
  split <;> rfl

lemma tryMove_files_subset (d : Dir) (f c x : String)
    (hx : x ∈ (tryMove d f c).2.files) : x ∈ d.files := by
  rw [tryMove_eq] at hx
  by_cases h1 : c ∈ d.files
  · rw [if_pos h1] at hx; exact hx
  · rw [if_neg h1] at hx
    by_cases h2 : f ∈ subContents (mkCategoryDir d c) c
    · rw [if_pos h2, mkCategoryDir_files] at hx; exact hx
    · rw [if_neg h2] at hx
      by_cases h3 : f ∈ (mkCategoryDir d c).files
      · rw [if_pos h3] at hx
        have hm := (List.mem_filter.mp hx).1
        rw [mkCategoryDir_files] at hm
        exact hm
      · rw [if_neg h3, mkCategoryDir_files] at hx; exact hx

lemma processFile_files_subset (is_dry_run : Bool) (env : String → MoveEvent)
    (categories : List (String × List String)) (d : Dir) (f x : String)
    (hx : x ∈ (processFile is_dry_run env categories d f).2.files) :
    x ∈ d.files := by
  revert hx
  unfold processFile
  cases decideFile categories f with
  | noExtension => exact id
  | unknownType e => exact id
  | category c =>
    cases is_dry_run with
    | true => exact id
    | false =>
      unfold tryMoveEnv
      cases env f with
      | permissionDenied => exact id
      | sourceVanished => exact id
      | normal => exact tryMove_files_subset d f c x

lemma runFiles_files_subset (is_dry_run : Bool) (env : String → MoveEvent)
    (categories : List (String × List String)) (fs : List String) :
    ∀ (d : Dir) (x : String),
      x ∈ (runFiles is_dry_run env categories d fs).2.files → x ∈ d.files := by
  induction fs with
  | nil => intro d x hx; exact hx
  | cons f rest ih =>
    intro d x hx
    rw [runFiles_cons] at hx
    exact processFile_files_subset is_dry_run env categories d f x (ih _ x hx)

lemma lookupSub_append (l₁ l₂ : List (String × List String)) (c : String) :
    lookupSub (l₁ ++ l₂) c
      = match lookupSub l₁ c with
        | some v => some v
        | none => lookupSub l₂ c := by
  induction l₁ with
  | nil => rfl
  | cons p rest ih =>
    by_cases h : p.1 = c <;> simp [lookupSub, h, ih]

lemma subContents_mkCategoryDir_mono (d : Dir) (c c' x : String)
    (hx : x ∈ subContents d c') : x ∈ subContents (mkCategoryDir d c) c' := by
  unfold mkCategoryDir
  split
  · exact hx
  · unfold subContents at hx ⊢
    cases hl : lookupSub d.subdirs c' with
    | none => rw [hl] at hx; simp at hx
    | some l =>
      rw [hl] at hx
      have hap : lookupSub (d.subdirs ++ [(c, [])]) c' = some l := by
        rw [lookupSub_append, hl]
      simpa [hap] using hx

lemma lookupSub_addToSub (subs : List (String × List String)) (c f c' : String) :
    lookupSub (addToSub subs c f) c'
      = (lookupSub subs c').map (fun l => if c' = c then l ++ [f] else l) := by
  induction subs with
  | nil => rfl
  | cons p rest ih =>
    obtain ⟨a, b⟩ := p
    simp only [addToSub, List.map_cons] at ih ⊢
    by_cases h1 : a = c
    · subst h1
      by_cases h2 : a = c'
      · subst h2
        simp [lookupSub]
      · simp [lookupSub, h2, ih]
    · by_cases h2 : a = c'
      · subst h2
        simp [lookupSub, h1]
      · simp [lookupSub, h1, h2, ih]

lemma mem_getD_addToSub (subs : List (String × List String)) (c f c' x : String)
    (hx : x ∈ (lookupSub subs c').getD []) :
    x ∈ (lookupSub (addToSub subs c f) c').getD [] := by
  rw [lookupSub_addToSub]
  cases hl : lookupSub subs c' with
  | none => rw [hl] at hx; simp at hx
  | some l =>
    rw [hl] at hx
    show x ∈ (if c' = c then l ++ [f] else l)
    by_cases h : c' = c
    · rw [if_pos h]; exact List.mem_append_left _ hx
    · rw [if_neg h]; exact hx

lemma tryMove_subContents_mono (d : Dir) (f c c' x : String)
    (hx : x ∈ subContents d c') : x ∈ subContents (tryMove d f c).2 c' := by
  rw [tryMove_eq]
  have hmono := subContents_mkCategoryDir_mono d c c' x hx
  by_cases h1 : c ∈ d.files
  · rw [if_pos h1]; exact hx
  · rw [if_neg h1]
    by_cases h2 : f ∈ subContents (mkCategoryDir d c) c
    · rw [if_pos h2]; exact hmono
    · rw [if_neg h2]
      by_cases h3 : f ∈ (mkCategoryDir d c).files
      · rw [if_pos h3]
        unfold subContents at hmono ⊢
        exact mem_getD_addToSub _ c f c' x hmono
      · rw [if_neg h3]; exact hmono

lemma processFile_subContents_mono (is_dry_run : Bool) (env : String → MoveEvent)
    (categories : List (String × List String)) (d : Dir) (f c' x : String)
    (hx : x ∈ subContents d c') :
    x ∈ subContents (processFile is_dry_run env categories d f).2 c' := by
  revert hx
  unfold processFile
  cases decideFile categories f with
  | noExtension => exact id
  | unknownType e => exact id
  | category c =>
    cases is_dry_run with
    | true => exact id
    | false =>
      unfold tryMoveEnv
      cases env f with
      | permissionDenied => exact id
      | sourceVanished => exact id
      | normal => exact tryMove_subContents_mono d f c c' x

lemma runFiles_subContents_mono (is_dry_run : Bool) (env : String → MoveEvent)
    (categories : List (String × List String)) (fs : List String) :
    ∀ (d : Dir) (c' x : String),
      x ∈ subContents d c' →
      x ∈ subContents (runFiles is_dry_run env categories d fs).2 c' := by
  induction fs with
  | nil => intro d c' x hx; exact hx
  | cons f rest ih =>
    intro d c' x hx
    rw [runFiles_cons]
    exact ih _ c' x
      (processFile_subContents_mono is_dry_run env categories d f c' x hx)

lemma runFiles_leftover_in_subdir (env : String → MoveEvent)
    (categories : List (String × List String)) (fs : List String) :
    ∀ (d : Dir) (f c : String),
      (∀ o ∈ (runFiles false env categories d fs).1, isErrorOutcome o = false) →
      f ∈ fs →
      f ∈ (runFiles false env categories d fs).2.files →
      decideFile categories f = .category c →
      env f = .normal ∧
      f ∈ subContents (runFiles false env categories d fs).2 c ∧
      c ∉ (runFiles false env categories d fs).2.files := by
  induction fs with
  | nil => intro d f c _ hf; cases hf
  | cons g rest ih =>
    intro d f c herr hf hfin hdec
    have herr0 : isErrorOutcome (processFile false env categories d g).1
        = false := by
      apply herr
      rw [runFiles_cons]
      exact List.mem_cons_self _ _
    have herrR : ∀ o ∈ (runFiles false env categories
        (processFile false env categories d g).2 rest).1,
        isErrorOutcome o = false := by
      intro o ho
      apply herr
      rw [runFiles_cons]
      exact List.mem_cons_of_mem _ ho
    rw [runFiles_cons] at hfin ⊢
    by_cases hfr : f ∈ rest
    · exact ih _ f c herrR hfr hfin hdec
    · have hfg : f = g := by
        rcases List.mem_cons.mp hf with h | h
        · exact h
        · exact absurd h hfr
      subst hfg
      have hpf : processFile false env categories d f
          = tryMoveEnv env d f c := by
        simp only [processFile, hdec, Bool.false_eq_true, if_false]
      rw [hpf] at herr0 hfin ⊢
      cases henv : env f with
      | permissionDenied =>
        rw [tryMoveEnv, henv] at herr0
        exact absurd herr0 (by simp [isErrorOutcome])
      | sourceVanished =>
        rw [tryMoveEnv, henv] at herr0
        exact absurd herr0 (by simp [isErrorOutcome])
      | normal =>
        rw [tryMoveEnv, henv] at herr0 hfin ⊢
        by_cases h1 : c ∈ d.files
        · rw [tryMove_eq, if_pos h1] at herr0
          exact absurd herr0 (by simp [isErrorOutcome])
        · by_cases h2 : f ∈ subContents (mkCategoryDir d c) c
          · have hstep : tryMove d f c = (.skippedExists c, mkCategoryDir d c) := by
              rw [tryMove_eq, if_neg h1, if_pos h2]
            rw [hstep] at hfin ⊢
            refine ⟨rfl, ?_, ?_⟩
            · exact runFiles_subContents_mono false env categories rest
                (mkCategoryDir d c) c f h2
            · intro hcfin
              have := runFiles_files_subset false env categories rest
                (mkCategoryDir d c) c hcfin
              rw [mkCategoryDir_files] at this
              exact h1 this
          · by_cases h3 : f ∈ (mkCategoryDir d c).files
            · have hstep : tryMove d f c
                  = (.moved c,
                     { files := (mkCategoryDir d c).files.filter
                         (fun n => n ≠ f),
                       subdirs := addToSub (mkCategoryDir d c).subdirs c f }) := by
                rw [tryMove_eq, if_neg h1, if_neg h2, if_pos h3]
              rw [hstep] at hfin
              have hmem := runFiles_files_subset false env categories rest _ f hfin
              have := (List.mem_filter.mp hmem).2
              simp at this
            · have hstep : tryMove d f c = (.errorNotFound c, mkCategoryDir d c) := by
                rw [tryMove_eq, if_neg h1, if_neg h2, if_neg h3]
              rw [hstep] at herr0
              exact absurd herr0 (by simp [isErrorOutcome])

lemma runFiles_already_organized (env : String → MoveEvent)
    (categories : List (String × List String)) (fs : List String) :
    ∀ d : Dir,
      (∀ f ∈ fs, ∀ c, decideFile categories f = .category c →
        env f = .normal ∧ f ∈ subContents d c ∧ c ∉ d.files) →
      ∀ o ∈ (runFiles false env categories d fs).1,
        o = .skippedNoExt ∨ (∃ e, o = .skippedUnknown e)
          ∨ (∃ c, o = .skippedExists c) := by
  induction fs with
  | nil => intro d _ o ho; cases ho
  | cons g rest ih =>
    intro d hinv o ho
    rw [runFiles_cons] at ho
    rcases List.mem_cons.mp ho with h | h
    · cases hdec : decideFile categories g with
      | noExtension =>
        left; rw [h]; simp [processFile, hdec]
      | unknownType e =>
        right; left
        exact ⟨e, by rw [h]; simp [processFile, hdec]⟩
      | category c =>
        obtain ⟨henv, hsub, hc⟩ := hinv g (List.mem_cons_self _ _) c hdec
        right; right
        refine ⟨c, ?_⟩
        rw [h]
        simp only [processFile, hdec, Bool.false_eq_true, if_false,
          tryMoveEnv, henv]
        rw [tryMove_skippedExists d g c hsub hc]
    · have hstate : (processFile false env categories d g).2 = d := by
        cases hdec : decideFile categories g with
        | noExtension => simp [processFile, hdec]
        | unknownType e => simp [processFile, hdec]
        | category c =>
          obtain ⟨henv, hsub, hc⟩ := hinv g (List.mem_cons_self _ _) c hdec
          simp only [processFile, hdec, Bool.false_eq_true, if_false,
            tryMoveEnv, henv]
          rw [tryMove_skippedExists d g c hsub hc]
      rw [hstate] at h
      exact ih d (fun f hf c hd => hinv f (List.mem_cons_of_mem _ hf) c hd) o h

/-- C9: after a real run on a directory that produced no error records, running
`perform_organization` again on the resulting directory yields zero moved
records and no error records: every file the second scan still sees is either
without extension, of unknown type, or already present in its category
subfolder (the scan is non-recursive and sees only top-level regular files, so
relocated files are not scanned again), and each is reported as a skip. -/
theorem c9_real_run_idempotent (env : String → MoveEvent)
    (categories : List (String × List String)) (selfName : String) (d : Dir)
    (hok : ∀ o ∈ (perform_organization false env categories selfName d).1,
      isErrorOutcome o = false) :
    ∀ o ∈ (perform_organization false env categories selfName
        (perform_organization false env categories selfName d).2).1,
      (∀ c, o ≠ .moved c) ∧ isErrorOutcome o = false := by
  intro o ho
  have hmain : o = .skippedNoExt ∨ (∃ e, o = .skippedUnknown e)
      ∨ (∃ c, o = .skippedExists c) := by
    apply runFiles_already_organized env categories
      (scanDir selfName (perform_organization false env categories selfName d).2)
      (perform_organization false env categories selfName d).2 ?_ o ho
    intro f hf c hdec
    have hf1 : f ∈ (perform_organization false env categories selfName d).2.files :=
      (List.mem_filter.mp hf).1
    have hfne : f ≠ selfName := by
      have := (List.mem_filter.mp hf).2
      simpa using this
    have hfd : f ∈ d.files :=
      runFiles_files_subset false env categories (scanDir selfName d) d f hf1
    have hfs1 : f ∈ scanDir selfName d :=
      List.mem_filter.mpr ⟨hfd, by simpa using hfne⟩
    exact runFiles_leftover_in_subdir env categories (scanDir selfName d) d f c
      hok hfs1 hf1 hdec
  rcases hmain with h | ⟨e, h⟩ | ⟨c, h⟩ <;> subst h
  · exact ⟨fun c2 hc => Outcome.noConfusion hc, rfl⟩
  · exact ⟨fun c2 hc => Outcome.noConfusion hc, rfl⟩
  · exact ⟨fun c2 hc => Outcome.noConfusion hc, rfl⟩

/-- Witness for `c9_real_run_idempotent`: a concrete error-free first run; the
second run's only record is a skip, neither moved nor an error. -/
theorem c9_witness :
    (∀ c, Outcome.skippedUnknown ".txt" ≠ Outcome.moved c) ∧
    isErrorOutcome (Outcome.skippedUnknown ".txt") = false :=
  c9_real_run_idempotent normalEnv [("Images", [".jpg"])] "organizer.py"
    ⟨["a.jpg", "b.txt"], []⟩ (by decide)
    (Outcome.skippedUnknown ".txt") (by decide)

end FileTypeOrganizer
